import Mathlib

set_option maxRecDepth 8000

/-! Verification development for the `bixy_files` brand-scrape pipeline.

The Python sources `extract_dom.py`, `run_brand_scrape.py` and
`zenrows_fetch.py` are shallowly embedded below: pure helpers become Lean
functions over `String`/`List`, the HTML tree handed to BeautifulSoup becomes
an inductive `HNode` tree, and the network is abstracted as the sequence of
responses/chunks an execution observes.  Library collaborators
(`urllib.parse`, `str` methods) are modelled by executable char-list
functions faithful to the inputs this pipeline feeds them. -/

/-! ## String primitives (models of Python `str` operations) -/

/-- Model of Python `str.lower()` (ASCII case folding, which is all the
pipeline's URLs and attribute values exercise). -/
def lowerStr (s : String) : String := String.mk (s.data.map Char.toLower)

/-- Substring occurrence test on character lists: `listContains pat hay` is
true when `pat` occurs contiguously inside `hay`. -/
def listContains (pat : List Char) : List Char → Bool
  | [] => pat.isEmpty
  | c :: rest => pat.isPrefixOf (c :: rest) || listContains pat rest

/-- Model of the Python substring test `pat in s`. -/
def strContains (s pat : String) : Bool := listContains pat.data s.data

/-- Model of Python `a or b` where `a` is an optional string (`None` and the
empty string are both falsy). -/
def pyOr (a b : Option String) : Option String :=
  match a with
  | none => b
  | some s => if s = "" then b else some s

/-- ASCII whitespace, the character class Python's `str.strip()` removes on
the inputs this pipeline sees. -/
def isSpaceChar (c : Char) : Bool :=
  c == ' ' || c == '\t' || c == '\n' || c == '\r'

/-- Model of Python `str.strip()`. -/
def strTrim (s : String) : String :=
  String.mk (((s.data.dropWhile isSpaceChar).reverse.dropWhile isSpaceChar).reverse)

/-- Model of Python `str.startswith`. -/
def strStarts (s pre : String) : Bool := pre.data.isPrefixOf s.data

/-- Left-to-right non-overlapping replacement on character lists, the
semantics of Python `str.replace`.  The `skip` counter threads the characters
still owed to an already-emitted replacement so the recursion stays
structural. -/
def replAux (pat rep : List Char) : List Char → Nat → List Char
  | [], _ => []
  | c :: rest, skip =>
    match skip with
    | k + 1 => replAux pat rep rest k
    | 0 =>
      if pat ≠ [] ∧ pat.isPrefixOf (c :: rest) then
        rep ++ replAux pat rep rest (pat.length - 1)
      else c :: replAux pat rep rest 0

/-- Model of Python `s.replace(pat, rep)` for a non-empty pattern. -/
def strReplace (s pat rep : String) : String :=
  String.mk (replAux pat.data rep.data s.data 0)

/-! ## Model of `urllib.parse` (library collaborator) -/

/-- Splits a character list at the first occurrence of `pat`, returning the
segments before and after it. -/
def subSplit (pat : List Char) : List Char → Option (List Char × List Char)
  | [] => if pat.isEmpty then some ([], []) else none
  | c :: rest =>
    if pat.isPrefixOf (c :: rest) then some ([], (c :: rest).drop pat.length)
    else
      match subSplit pat rest with
      | some (pre, post) => some (c :: pre, post)
      | none => none

/-- Model of `urllib.parse.urlparse(u).netloc` for the URL shapes this
pipeline produces: an authority introduced by `"://"` and delimited by the
next `/`, `?` or `#`; relative references have an empty netloc. -/
def netloc (u : String) : String :=
  match subSplit "://".data u.data with
  | none => ""
  | some (_, post) => String.mk (post.takeWhile fun c => c != '/' && c != '?' && c != '#')

/-- Recognizes an RFC 3986 scheme at the front of a URL, returning the scheme
and the remainder after the colon. -/
def schemeSplit (u : String) : Option (String × String) :=
  let pre := u.data.takeWhile (· != ':')
  if pre.length < u.data.length ∧ pre ≠ [] ∧ (pre.headD 'a').isAlpha ∧
      pre.all (fun c => c.isAlpha || c.isDigit || c == '+' || c == '-' || c == '.') then
    some (String.mk pre, String.mk (u.data.drop (pre.length + 1)))
  else none

/-- Keeps a path's characters up to and including its final slash. -/
def upToLastSlash (l : List Char) : List Char :=
  (l.reverse.dropWhile (· != '/')).reverse

/-- Model of `urllib.parse.urljoin` restricted to the reference shapes the
scraper feeds it: absolute references, scheme-relative (`//…`), root-relative
(`/…`) and plain relative paths, resolved against a `scheme://host/path`
base, without dot-segment, query or fragment handling. -/
def urljoin (base ref : String) : String :=
  if ref = "" then base
  else if (schemeSplit ref).isSome then ref
  else
    match schemeSplit base with
    | none => ref
    | some (sch, rest) =>
      if strStarts ref "//" then sch ++ ":" ++ ref
      else
        let hostPath := if strStarts rest "//" then String.mk (rest.data.drop 2) else rest
        let host := String.mk (hostPath.data.takeWhile (· != '/'))
        let path := String.mk (hostPath.data.drop host.length)
        let origin := sch ++ "://" ++ host
        if strStarts ref "/" then origin ++ ref
        else
          let dir := upToLastSlash path.data
          origin ++ (if dir.isEmpty then "/" else String.mk dir) ++ ref

/-! ## `extract_dom.py`: tracker filter, domain affinity, dedupe -/

def TRACKER_HOST_SUBSTRINGS : List String :=
  ["google-analytics.com", "tealiumiq.com", "doubleclick.net",
   "googletagmanager.com", "facebook.com/tr", "connect.facebook.net"]

/-- `extract_dom._is_tracker`: the lower-cased URL contains one of the fixed
tracker substrings. -/
def _is_tracker (url : String) : Bool :=
  TRACKER_HOST_SUBSTRINGS.any (fun t => strContains (lowerStr url) t)

/-- `extract_dom._same_domain`: hosts compared after lower-casing and
removing `"www."`, by suffix match; URLs without a host count as same-domain. -/
def _same_domain (asset_url base_url : String) : Bool :=
  let aNet := netloc asset_url
  if aNet = "" then true
  else
    let host := strReplace (lowerStr aNet) "www." ""
    let baseHost := strReplace (lowerStr (netloc base_url)) "www." ""
    baseHost.data.isSuffixOf host.data

/-- The loop body of `extract_dom._dedupe`, with the `seen` set as a list and
the accumulating `out` list rendered as direct recursion. -/
def dedupeAux (seen : List String) : List String → List String
  | [] => []
  | u :: rest =>
    if u = "" ∨ u ∈ seen then dedupeAux seen rest
    else u :: dedupeAux (u :: seen) rest

/-- `extract_dom._dedupe`: drops falsy entries and duplicates, keeping
first-seen order. -/
def _dedupe (urls : List String) : List String := dedupeAux [] urls

/-- The loop body of the `zenrows_scraper/extract_dom.py` variant of
`_dedupe`, whose guard is only `if u in seen` — it has no falsy-entry
drop. -/
def dedupeScraperAux (seen : List String) : List String → List String
  | [] => []
  | u :: rest =>
    if u ∈ seen then dedupeScraperAux seen rest
    else u :: dedupeScraperAux (u :: seen) rest

/-- The `zenrows_scraper` variant of `_dedupe`: duplicates dropped, empty
entries retained. -/
def _dedupe_scraper (urls : List String) : List String := dedupeScraperAux [] urls

/-! ## HTML tree and document traversal (model of BeautifulSoup) -/

/-- A parsed HTML node: an element with a tag name, attributes (first
occurrence wins on duplicates, as in `html.parser`) and children, or text. -/
inductive HNode where
  | elem (tag : String) (attrs : List (String × String)) (children : List HNode)
  | text (s : String)
deriving Repr

/-- One element as the extraction code sees it: its tag, attributes, the tags
of its ancestors (innermost first), and the subtree rooted at it (for nested
`find_all` calls). -/
structure EInfo where
  tag : String
  attrs : List (String × String)
  ancestorTags : List String
  node : HNode

mutual

/-- Pre-order traversal listing every element of a tree together with its
ancestor tags; pre-order is BeautifulSoup's document order. -/
def allElems (anc : List String) : HNode → List EInfo
  | .text _ => []
  | .elem t a cs => ⟨t, a, anc, .elem t a cs⟩ :: allElemsL (t :: anc) cs

def allElemsL (anc : List String) : List HNode → List EInfo
  | [] => []
  | n :: ns => allElems anc n ++ allElemsL anc ns

end

/-- Model of `soup.find_all(tag)`: matching elements in document order. -/
def findAll (doc : HNode) (tag : String) : List EInfo :=
  (allElems [] doc).filter (fun e => e.tag == tag)

/-- Attribute access `tag.get(name)` (first occurrence, `None` if absent). -/
def attrGet (attrs : List (String × String)) (name : String) : Option String :=
  attrs.lookup name

/-! ## `extract_dom.py`: logo image selection -/

/-- The effective source of an `<img>`:
`(img.get("src") or img.get("data-src") or img.get("data-lazy-src") or "").strip()`. -/
def effSrc (attrs : List (String × String)) : String :=
  strTrim ((pyOr (attrGet attrs "src")
    (pyOr (attrGet attrs "data-src") (attrGet attrs "data-lazy-src"))).getD "")

/-- The effective source of an `<img>` in the `zenrows_scraper/extract_dom.py`
variant of `_pick_logo_img` (its `score` closure and its update branch):
`(img.get("src") or "").strip()` — only the direct `src` attribute is
consulted, with no lazy-loading attributes. -/
def effSrcScraper (attrs : List (String × String)) : String :=
  strTrim ((pyOr (attrGet attrs "src") (some "")).getD "")

def LOGO_BAD_SUBSTRINGS : List String :=
  ["pcmag", "nerdwallet", "cybernews", "award", "badge", "review", "trustpilot"]

/-- The `score` closure of `extract_dom._pick_logo_img`; `hint` arrives
already lower-cased.  BeautifulSoup's token-list `class` attribute is kept as
its raw string, which contains `"logo"` exactly when the joined token list
does. -/
def scoreImg (base_url hint : String) (img : EInfo) : Int :=
  let src := effSrc img.attrs
  if src = "" then -999
  else
    let full := urljoin base_url src
    if _is_tracker full then -999
    else
      let alt := lowerStr ((attrGet img.attrs "alt").getD "")
      let title := lowerStr ((attrGet img.attrs "title").getD "")
      let cls := lowerStr ((attrGet img.attrs "class").getD "")
      let full_l := lowerStr full
      let s : Int := 0
      let s := if img.ancestorTags.any (fun t => t == "header" || t == "nav") then s + 50 else s
      let s := if hint ≠ "" ∧ (strContains alt hint || strContains title hint
                 || strContains full_l hint) then s + 40 else s
      let s := if strContains alt "logo" || strContains title "logo"
                 || strContains cls "logo" || strContains full_l "logo" then s + 20 else s
      let s := s - 25 * (LOGO_BAD_SUBSTRINGS.countP (fun bad => strContains full_l bad) : Int)
      let s := if _same_domain full base_url then s + 10 else s
      s

/-- The running-maximum loop of `_pick_logo_img`: strict improvement updates
both the best score and the best URL. -/
def pickLoop {α : Type} (sc : α → Int) (url : α → String) :
    List α → Option String → Int → Option String × Int
  | [], bu, bs => (bu, bs)
  | x :: rest, bu, bs =>
    if bs < sc x then pickLoop sc url rest (some (url x)) (sc x)
    else pickLoop sc url rest bu bs

/-- `extract_dom._pick_logo_img`: scan every `<img>` in document order with a
running maximum starting at `-999`; return the best URL only when the best
score is at least `0`. -/
def _pick_logo_img (doc : HNode) (base_url brand_hint : String) : Option String :=
  let hint := lowerStr brand_hint
  let imgs := findAll doc "img"
  let r := pickLoop (scoreImg base_url hint)
    (fun img => urljoin base_url (effSrc img.attrs)) imgs none (-999)
  if 0 ≤ r.2 then r.1 else none

/-! ## `extract_dom.py`: image collection and video/embed collection -/

/-- The image-collection loop of `extract_dom`: every `<img>`'s effective
source, skipping empty sources and tracker URLs, then deduplicated. -/
def imageUrls (doc : HNode) (base_url : String) : List String :=
  _dedupe ((findAll doc "img").filterMap (fun img =>
    let src := effSrc img.attrs
    if src = "" then none
    else
      let full := urljoin base_url src
      if _is_tracker full then none else some full))

/-- `extract_dom._normalize_media_url`: `None` for empty or `data:` inputs,
otherwise the stripped reference resolved against the base. -/
def _normalize_media_url (u : String) (base_url : String) : Option String :=
  if u = "" then none
  else
    let u := strTrim u
    if u = "" then none
    else if strStarts u "data:" then none
    else some (urljoin base_url u)

def VIDEO_EXTS : List String := [".mp4", ".webm", ".m3u8", ".mov"]

/-- A resolved URL counts as a direct video when its lower-cased form
contains a recognized video or manifest extension. -/
def isVideoUrl (nu : String) : Bool :=
  VIDEO_EXTS.any (fun ext => strContains (lowerStr nu) ext)

def VIDEO_LAZY_ATTRS : List String :=
  ["data-src", "data-source", "data-video", "data-video-src", "data-mp4",
   "data-webm", "data-d1600", "data-t768", "data-m521", "data-m415", "data-m"]

/-- Candidate source values probed on one `<video>` element: the direct
`src`, the fixed lazy-attribute list, and every `data-*` attribute whose
value mentions a video extension. -/
def videoCandidates (v : EInfo) : List (Option String) :=
  [attrGet v.attrs "src"] ++ VIDEO_LAZY_ATTRS.map (attrGet v.attrs) ++
    v.attrs.filterMap (fun kv =>
      if strStarts kv.1 "data-" ∧
          (strContains (lowerStr kv.2) ".mp4" || strContains (lowerStr kv.2) ".webm"
            || strContains (lowerStr kv.2) ".m3u8") then
        some (some kv.2)
      else none)

/-- Candidate source values probed on one nested `<source>` element. -/
def sourceCandidates (s : EInfo) : List (Option String) :=
  [attrGet s.attrs "src", attrGet s.attrs "data-src", attrGet s.attrs "data-source"]

/-- Insertion into the `direct` collection.  The Python code uses a `set`;
it is modelled as an insertion-ordered duplicate-free list, which agrees with
the set on membership. -/
def setAdd (l : List String) (u : String) : List String :=
  if u ∈ l then l else l ++ [u]

/-- Folds one candidate value into the direct-URL collection: normalize it
and keep it when it carries a video extension. -/
def addCandidate (base_url : String) (acc : List String) (c : Option String) : List String :=
  match _normalize_media_url (c.getD "") base_url with
  | none => acc
  | some nu => if isVideoUrl nu then setAdd acc nu else acc

/-- A discovered video embed: a Vidyard descriptor built from the provider's
URL template, or a meta-tag declaration. -/
inductive VideoEmbed where
  | vidyard (uuid : String) (embedUrl : String) (thumbUrl : Option String)
  | meta (property : String) (url : String)
deriving DecidableEq, Repr

def META_VIDEO_PROPS : List String :=
  ["og:video", "og:video:url", "twitter:player", "twitter:player:stream"]

/-- `extract_dom._collect_video_urls`: the four discovery strategies
(`<video>` attributes and nested `<source>`s, anchor hrefs, Vidyard markers,
meta declarations), returning the deduplicated direct URLs and the embed
list. -/
def _collect_video_urls (doc : HNode) (base_url : String) : List String × List VideoEmbed :=
  let direct1 := (findAll doc "video").foldl (fun acc v =>
    let acc := (videoCandidates v).foldl (addCandidate base_url) acc
    (findAll v.node "source").foldl (fun acc s =>
      (sourceCandidates s).foldl (addCandidate base_url) acc) acc) []
  let direct2 := (findAll doc "a").foldl (fun acc a =>
    addCandidate base_url acc (attrGet a.attrs "href")) direct1
  let embeds1 := ((allElems [] doc).filter
      (fun t => (attrGet t.attrs "data-vid-uuid").isSome)).filterMap (fun t =>
    let uuid := strTrim ((attrGet t.attrs "data-vid-uuid").getD "")
    if uuid = "" then none
    else
      let thumb := pyOr (attrGet t.attrs "data-src") (attrGet t.attrs "src")
      some (VideoEmbed.vidyard uuid ("https://play.vidyard.com/" ++ uuid ++ ".html")
        (_normalize_media_url (thumb.getD "") base_url)))
  let step := (findAll doc "meta").foldl (fun (st : List String × List VideoEmbed) m =>
    let prop := lowerStr ((pyOr (attrGet m.attrs "property") (attrGet m.attrs "name")).getD "")
    if prop ∈ META_VIDEO_PROPS then
      match _normalize_media_url ((attrGet m.attrs "content").getD "") base_url with
      | none => st
      | some nu =>
        if isVideoUrl nu then (setAdd st.1 nu, st.2)
        else (st.1, st.2 ++ [VideoEmbed.meta prop nu])
    else st) (direct2, embeds1)
  (_dedupe step.1, step.2)

/-- The brand hint computed in `extract_dom`:
`urlparse(base_url).netloc.replace("www.", "").split(".")[0]`. -/
def brandHint (base_url : String) : String :=
  String.mk ((strReplace (netloc base_url) "www." "").data.takeWhile (· != '.'))

/-- The asset fields of `extract_dom`'s result that are under verification. -/
structure DomExtract where
  logo_url : Option String
  image_urls : List String
  video_urls : List String
  video_embeds : List VideoEmbed

/-- `extract_dom.extract_dom`, restricted to the logo/image/video outputs the
claims are about. -/
def extract_dom (doc : HNode) (base_url : String) : DomExtract :=
  { logo_url := _pick_logo_img doc base_url (brandHint base_url)
    image_urls := imageUrls doc base_url
    video_urls := (_collect_video_urls doc base_url).1
    video_embeds := (_collect_video_urls doc base_url).2 }

/-! ## `run_brand_scrape.py`: content-type resolver -/

def EXT_MAPPING : List (String × String) :=
  [("image/png", "png"), ("image/jpeg", "jpg"), ("image/jpg", "jpg"),
   ("image/webp", "webp"), ("image/gif", "gif"), ("video/mp4", "mp4"),
   ("video/webm", "webm"), ("application/vnd.apple.mpegurl", "m3u8"),
   ("application/x-mpegurl", "m3u8")]

def URL_EXT_SCAN_ORDER : List String :=
  ["png", "jpg", "jpeg", "webp", "gif", "mp4", "webm", "m3u8"]

/-- The URL-suffix fallback loop of `guess_ext_from_content_type`: the first
extension of the fixed ordered list whose dotted form occurs in the URL, with
`"jpeg"` normalized to `"jpg"`. -/
def extScan (ul : String) : List String → Option String
  | [] => none
  | ext :: rest =>
    if strContains ul ("." ++ ext) then some (if ext = "jpeg" then "jpg" else ext)
    else extScan ul rest

/-- `run_brand_scrape.guess_ext_from_content_type`. -/
def guess_ext_from_content_type (ct : String) (fallback_url : String) : Option String :=
  match EXT_MAPPING.lookup (lowerStr ct) with
  | some e => some e
  | none => extScan (lowerStr fallback_url) URL_EXT_SCAN_ORDER

/-! ## `run_brand_scrape.py`: capped streaming download -/

/-- The streaming loop of `download_stream_capped`: each non-empty chunk is
counted into `total` first; a chunk that pushes `total` past `max_bytes`
stops the loop without being written. Returns the counted total and the
persisted bytes. -/
def streamLoop (max_bytes : Nat) : List (List Nat) → Nat → List Nat → Nat × List Nat
  | [], total, written => (total, written)
  | chunk :: rest, total, written =>
    if chunk.isEmpty then streamLoop max_bytes rest total written
    else
      let total' := total + chunk.length
      if max_bytes < total' then (total', written)
      else streamLoop max_bytes rest total' (written ++ chunk)

/-- The fields of the dict returned by `download_stream_capped` that the
claims are about: the reported `bytes` count, the bytes persisted to the
destination file, and the `capped`/`max_bytes` markers. -/
structure CappedResult where
  bytes : Nat
  written : List Nat
  capped : Bool
  max_bytes : Nat
deriving DecidableEq

/-- `run_brand_scrape.download_stream_capped`, with the HTTP response body
abstracted as the chunk sequence `iter_content` yields. -/
def download_stream_capped (chunks : List (List Nat)) (max_bytes : Nat) : CappedResult :=
  let r := streamLoop max_bytes chunks 0 []
  { bytes := r.1, written := r.2, capped := true, max_bytes := max_bytes }

/-! ## `run_brand_scrape.py`: per-asset download loops -/

/-- One outcome record appended to `downloaded_images`/`downloaded_videos`:
the requested URL, the `ok` flag, and the error message if one was caught. -/
structure AssetEntry where
  requested_url : String
  ok : Bool
  error : Option String
deriving DecidableEq

/-- What one image download attempt observes: the `download` call raises, or
returns a content type and final URL, after which the palette step may raise
(`paletteErr`). -/
inductive ImgDl where
  | raiseErr (e : String)
  | got (content_type : String) (final_url : String) (paletteErr : Option String)

def RASTER_EXTS : List String := ["png", "jpg", "jpeg", "webp", "gif"]

/-- One iteration of the image-download loop of `scrape_brand_report`: the
`try` body appends the success (or unsupported-type) record, and the `except`
arm appends an error record — including after a palette failure that follows
an already-appended success record. -/
def processImage (env : String → ImgDl) (u : String) : List AssetEntry :=
  match env u with
  | .raiseErr e => [⟨u, false, some e⟩]
  | .got ct fu perr =>
    match guess_ext_from_content_type ct fu with
    | none => [⟨u, false, none⟩]
    | some ext =>
      if ext ∈ RASTER_EXTS then
        match perr with
        | none => [⟨u, true, none⟩]
        | some e => [⟨u, true, none⟩, ⟨u, false, some e⟩]
      else [⟨u, true, none⟩]

/-- The image-download loop over the selected top images. -/
def processImages (env : String → ImgDl) (urls : List String) : List AssetEntry :=
  urls.flatMap (processImage env)

/-- What one video download attempt observes. -/
inductive VidDl where
  | raiseErr (e : String)
  | got (content_type : String) (final_url : String)

/-- One iteration of the video-download loop of `scrape_brand_report`: the
single record is appended at the end of the `try` body, or by the `except`
arm. -/
def processVideo (env : String → VidDl) (u : String) : List AssetEntry :=
  match env u with
  | .raiseErr e => [⟨u, false, some e⟩]
  | .got ct fu =>
    match guess_ext_from_content_type ct fu with
    | some _ => [⟨u, true, none⟩]
    | none => [⟨u, false, none⟩]

/-- The video-download loop over the selected top videos. -/
def processVideos (env : String → VidDl) (urls : List String) : List AssetEntry :=
  urls.flatMap (processVideo env)

/-! ## `zenrows_fetch.py`: retry loop of `zenrows_get` -/

/-- What one attempt of the retry loop observes: an HTTP response with a
status code, or a transport-level exception (identified by a tag). -/
inductive NetEvent where
  | resp (code : Nat)
  | exn (e : Nat)

/-- An underlying error the loop can record in `last_err`: a transport
exception, or the `HTTPError` raised by `raise_for_status`. -/
inductive ReqError where
  | transport (e : Nat)
  | httpStatus (code : Nat)
deriving DecidableEq

/-- The overall outcome of `zenrows_get`: a returned successful response, or
the terminal `RuntimeError` chained from `last_err`. -/
inductive GetResult where
  | success (code : Nat)
  | terminalFailure (lastErr : Option ReqError)
deriving DecidableEq

def RETRY_STATUSES : List Nat := [429, 500, 502, 503, 504]

/-- One backoff duration: `min(20, 2 ** attempt) + random.uniform(0, 0.5)`,
with the jitter stream abstracted as an input. -/
def backoff (jitter : Nat → ℚ) (attempt : Nat) : ℚ :=
  ((min 20 (2 ^ attempt) : Nat) : ℚ) + jitter attempt

/-- The `for attempt in range(max_retries)` loop of `zenrows_get`.  A retry
status sleeps and continues (without touching `last_err`); a non-retry error
status makes `raise_for_status` raise, which the `except` arm records and
sleeps on; any other response is returned.  Exhausting the budget raises the
terminal failure chained from `last_err`. -/
def zenrowsLoop (events : Nat → NetEvent) (jitter : Nat → ℚ) :
    Nat → Nat → Option ReqError → List ℚ → GetResult × List ℚ
  | 0, _, lastErr, sleeps => (.terminalFailure lastErr, sleeps)
  | fuel + 1, attempt, lastErr, sleeps =>
    match events attempt with
    | .resp code =>
      if code ∈ RETRY_STATUSES then
        zenrowsLoop events jitter fuel (attempt + 1) lastErr
          (sleeps ++ [backoff jitter attempt])
      else if 400 ≤ code ∧ code < 600 then
        zenrowsLoop events jitter fuel (attempt + 1) (some (.httpStatus code))
          (sleeps ++ [backoff jitter attempt])
      else (.success code, sleeps)
    | .exn e =>
      zenrowsLoop events jitter fuel (attempt + 1) (some (.transport e))
        (sleeps ++ [backoff jitter attempt])

/-- `zenrows_fetch.zenrows_get`, abstracted over the observed network events
and the jitter stream; returns the outcome and the list of backoff sleep
durations in order. -/
def zenrows_get (events : Nat → NetEvent) (jitter : Nat → ℚ) (max_retries : Nat) :
    GetResult × List ℚ :=
  zenrowsLoop events jitter max_retries 0 none []

/-- The response sequence 503, 503, then 200. -/
def ev503503200 : Nat → NetEvent :=
  fun i => if i < 2 then .resp 503 else .resp 200

/-- The response sequence of consecutive 500s. -/
def ev500 : Nat → NetEvent := fun _ => .resp 500

/-! ## Concrete inputs used by counterexamples and witnesses -/

/-- A page whose only asset is an anchor to a tracker-hosted mp4 file. -/
def trackerAnchorDoc : HNode :=
  .elem "html" [] [.elem "body" [] [
    .elem "a" [("href", "https://doubleclick.net/x.mp4")] []]]

/-- A page with one ordinary same-site image. -/
def plainImageDoc : HNode :=
  .elem "html" [] [.elem "body" [] [
    .elem "img" [("src", "a.png")] []]]

/-- The two-image page of the logo-scoring scenario: a header logo image and
a same-page award-badge image. -/
def acmeDoc : HNode :=
  .elem "html" [] [.elem "body" [] [
    .elem "header" [] [.elem "img" [("src", "logo.png"), ("alt", "Acme logo")] []],
    .elem "img" [("src", "badge.png"), ("alt", "Acme award badge")] []]]

def acmeBase : String := "https://acme.com/"

/-- An image-download environment in which the download succeeds as a PNG
and the subsequent palette step raises. -/
def paletteFailEnv : String → ImgDl :=
  fun _ => .got "image/png" "" (some "palette failed")

/-! ## Substring and lower-casing lemmas -/

theorem listContains_iff {pat hay : List Char} :
    listContains pat hay = true ↔ pat <:+: hay := by
  induction hay with
  | nil =>
    simp only [listContains, List.isEmpty_iff]
    constructor
    · rintro rfl; exact List.infix_rfl
    · intro h; exact List.eq_nil_of_infix_nil h
  | cons c rest ih =>
    simp only [listContains, Bool.or_eq_true, List.isPrefixOf_iff_prefix]
    constructor
    · rintro (h | h)
      · exact h.isInfix
      · exact List.infix_cons (ih.mp h)
    · intro h
      rcases h with ⟨s, t, hst⟩
      cases s with
      | nil => exact Or.inl ⟨t, by simpa using hst⟩
      | cons a s' =>
        refine Or.inr (ih.mpr ?_)
        cases hst
        exact ⟨s', t, rfl⟩

theorem strContains_lowerStr {u t : String}
    (hfix : t.data.map Char.toLower = t.data)
    (h : strContains u t = true) :
    strContains (lowerStr u) t = true := by
  unfold strContains at h ⊢
  rw [listContains_iff] at h ⊢
  have := List.IsInfix.map Char.toLower h
  rwa [hfix] at this

/-! ## Dedupe lemmas -/

theorem dedupeAux_sublist (seen : List String) (l : List String) :
    (dedupeAux seen l).Sublist l := by
  induction l generalizing seen with
  | nil => simp [dedupeAux]
  | cons u rest ih =>
    unfold dedupeAux
    split
    · exact (ih seen).cons u
    · exact (ih (u :: seen)).cons₂ u

theorem mem_dedupeAux {u : String} (seen : List String) (l : List String) :
    u ∈ dedupeAux seen l ↔ u ∈ l ∧ u ≠ "" ∧ u ∉ seen := by
  induction l generalizing seen with
  | nil => simp [dedupeAux]
  | cons v rest ih =>
    unfold dedupeAux
    split
    · rename_i hv
      rw [ih]
      constructor
      · rintro ⟨h1, h2, h3⟩; exact ⟨List.mem_cons_of_mem _ h1, h2, h3⟩
      · rintro ⟨h1, h2, h3⟩
        rcases List.mem_cons.mp h1 with rfl | h1
        · rcases hv with hv | hv
          · exact absurd hv h2
          · exact absurd hv h3
        · exact ⟨h1, h2, h3⟩
    · rename_i hv
      push_neg at hv
      simp only [List.mem_cons, ih, List.mem_cons]
      constructor
      · rintro (rfl | ⟨h1, h2, h3⟩)
        · exact ⟨Or.inl rfl, hv.1, hv.2⟩
        · exact ⟨Or.inr h1, h2, fun hc => h3 (Or.inr hc)⟩
      · rintro ⟨rfl | h1, h2, h3⟩
        · exact Or.inl rfl
        · by_cases huv : u = v
          · exact Or.inl huv
          · exact Or.inr ⟨h1, h2, fun hc => hc.elim huv h3⟩

theorem dedupeAux_nodup (seen : List String) (l : List String) :
    (dedupeAux seen l).Nodup := by
  induction l generalizing seen with
  | nil => simp [dedupeAux]
  | cons v rest ih =>
    unfold dedupeAux
    split
    · exact ih seen
    · refine List.nodup_cons.mpr ⟨fun hc => ?_, ih (v :: seen)⟩
      exact ((mem_dedupeAux _ _).mp hc).2.2 (List.mem_cons_self _ _)

theorem dedupeScraperAux_sublist (seen : List String) (l : List String) :
    (dedupeScraperAux seen l).Sublist l := by
  induction l generalizing seen with
  | nil => simp [dedupeScraperAux]
  | cons u rest ih =>
    unfold dedupeScraperAux
    split
    · exact (ih seen).cons u
    · exact (ih (u :: seen)).cons₂ u

theorem mem_dedupeScraperAux {u : String} (seen : List String) (l : List String) :
    u ∈ dedupeScraperAux seen l ↔ u ∈ l ∧ u ∉ seen := by
  induction l generalizing seen with
  | nil => simp [dedupeScraperAux]
  | cons v rest ih =>
    unfold dedupeScraperAux
    split
    · rename_i hv
      rw [ih]
      simp only [List.mem_cons]
      constructor
      · rintro ⟨h1, h2⟩
        exact ⟨Or.inr h1, h2⟩
      · rintro ⟨rfl | h1, h2⟩
        · exact absurd hv h2
        · exact ⟨h1, h2⟩
    · rename_i hv
      simp only [List.mem_cons, ih, List.mem_cons]
      constructor
      · rintro (rfl | ⟨h1, h2⟩)
        · exact ⟨Or.inl rfl, hv⟩
        · exact ⟨Or.inr h1, fun hc => h2 (Or.inr hc)⟩
      · rintro ⟨rfl | h1, h2⟩
        · exact Or.inl rfl
        · by_cases huv : u = v
          · exact Or.inl huv
          · exact Or.inr ⟨h1, fun hc => hc.elim huv h2⟩

theorem dedupeScraperAux_nodup (seen : List String) (l : List String) :
    (dedupeScraperAux seen l).Nodup := by
  induction l generalizing seen with
  | nil => simp [dedupeScraperAux]
  | cons v rest ih =>
    unfold dedupeScraperAux
    split
    · exact ih seen
    · refine List.nodup_cons.mpr ⟨fun hc => ?_, ih (v :: seen)⟩
      exact ((mem_dedupeScraperAux _ _).mp hc).2 (List.mem_cons_self _ _)

/-! ## Streaming-loop invariants -/

theorem streamLoop_inv (max_bytes : Nat) :
    ∀ (chunks : List (List Nat)) (total : Nat) (written : List Nat),
      total = written.length → written.length ≤ max_bytes →
      ((streamLoop max_bytes chunks total written).2.length ≤ max_bytes ∧
       ((streamLoop max_bytes chunks total written).1 ≤ max_bytes ↔
        (streamLoop max_bytes chunks total written).1 =
          (streamLoop max_bytes chunks total written).2.length)) := by
  intro chunks
  induction chunks with
  | nil =>
    intro total written ht hw
    subst ht
    simp only [streamLoop]
    exact ⟨hw, by simp [hw]⟩
  | cons chunk rest ih =>
    intro total written ht hw
    subst ht
    simp only [streamLoop]
    split
    · exact ih _ written rfl hw
    · rename_i hne
      split
      · rename_i hover
        dsimp only
        have hcne : chunk ≠ [] := fun hc => hne (by simp [hc])
        have hc0 : chunk.length ≠ 0 := fun h0 => hcne (List.length_eq_zero.mp h0)
        exact ⟨hw, fun hle => by omega, fun heq => by omega⟩
      · rename_i hfits
        have h := ih (written.length + chunk.length) (written ++ chunk)
          (by simp) (by simpa using Nat.le_of_not_lt hfits)
        simpa using h

theorem streamLoop_persistedPrefixOf (max_bytes : Nat) :
    ∀ (chunks : List (List Nat)) (total : Nat) (written : List Nat),
      ∃ p, (streamLoop max_bytes chunks total written).2 = written ++ p ∧
        p <+: chunks.flatten := by
  intro chunks
  induction chunks with
  | nil =>
    intro total written
    exact ⟨[], by simp [streamLoop], List.nil_prefix⟩
  | cons chunk rest ih =>
    intro total written
    simp only [streamLoop]
    split
    · rename_i hemp
      obtain ⟨p, hp, hpre⟩ := ih total written
      have hc : chunk = [] := by simpa using hemp
      exact ⟨p, hp, by simpa [hc] using hpre⟩
    · split
      · exact ⟨[], by simp, List.nil_prefix⟩
      · obtain ⟨p, hp, hpre⟩ := ih (total + chunk.length) (written ++ chunk)
        refine ⟨chunk ++ p, by simpa [List.append_assoc] using hp, ?_⟩
        obtain ⟨t, ht⟩ := hpre
        exact ⟨t, by simp [← ht, List.append_assoc]⟩

/-- C1 (counterexample): at cap 1 with a single two-byte chunk, the result is
marked `capped = true` yet reports `bytes = 2 > 1 = max_bytes`, because the
over-limit chunk is counted into `total` before the loop breaks. -/
theorem C1_capped_bytes_counterexample :
    (download_stream_capped [[7, 7]] 1).capped = true ∧
    ¬ (download_stream_capped [[7, 7]] 1).bytes ≤
        (download_stream_capped [[7, 7]] 1).max_bytes := by
  decide

/-- C1 (amended): every capped download persists at most `max_bytes` bytes,
and the reported `bytes` count is within the cap exactly when it equals the
persisted count — when the final over-limit chunk overshoots, `bytes` counts
that unwritten chunk and exceeds the cap. -/
theorem C1_capped_bytes_amended (chunks : List (List Nat)) (max_bytes : Nat) :
    (download_stream_capped chunks max_bytes).capped = true ∧
    (download_stream_capped chunks max_bytes).written.length ≤ max_bytes ∧
    ((download_stream_capped chunks max_bytes).bytes ≤ max_bytes ↔
      (download_stream_capped chunks max_bytes).bytes =
        (download_stream_capped chunks max_bytes).written.length) := by
  have h := streamLoop_inv max_bytes chunks 0 [] rfl (by simp)
  exact ⟨rfl, h.1, h.2⟩

/-- C2: for every byte ceiling and every response body,
`download_stream_capped` never persists more than `max_bytes` bytes, and what
it persists is an unmodified prefix of the streamed body — the final
over-limit chunk is never written. -/
theorem C2_capped_download_within_cap (chunks : List (List Nat)) (max_bytes : Nat) :
    (download_stream_capped chunks max_bytes).written.length ≤ max_bytes ∧
    (download_stream_capped chunks max_bytes).written <+: chunks.flatten := by
  have h1 := streamLoop_inv max_bytes chunks 0 [] rfl (by simp)
  obtain ⟨p, hp, hpre⟩ := streamLoop_persistedPrefixOf max_bytes chunks 0 []
  refine ⟨h1.1, ?_⟩
  show (streamLoop max_bytes chunks 0 []).2 <+: chunks.flatten
  rw [hp]
  simpa using hpre

/-- C9 (counterexample): the `zenrows_scraper` variant of `_dedupe` has no
falsy-entry drop: on the input `[""]` it returns `[""]`, so its output
contains an empty entry, while the top-level variant returns `[]`. -/
theorem C9_dedupe_counterexample :
    _dedupe_scraper [""] = [""] ∧ "" ∈ _dedupe_scraper [""] ∧ _dedupe [""] = [] := by
  decide

/-- C9 (amended): both `_dedupe` variants return a duplicate-free sublist of
the input (so first-seen order is preserved); the top-level variant's members
are exactly the non-empty input members, while the `zenrows_scraper` variant
keeps every input member, empty strings included. -/
theorem C9_dedupe_characterization_amended (urls : List String) :
    ((_dedupe urls).Nodup ∧ (_dedupe urls).Sublist urls ∧
      ∀ u, u ∈ _dedupe urls ↔ u ∈ urls ∧ u ≠ "") ∧
    ((_dedupe_scraper urls).Nodup ∧ (_dedupe_scraper urls).Sublist urls ∧
      ∀ u, u ∈ _dedupe_scraper urls ↔ u ∈ urls) := by
  refine ⟨⟨dedupeAux_nodup [] urls, dedupeAux_sublist [] urls, fun u => ?_⟩,
    dedupeScraperAux_nodup [] urls, dedupeScraperAux_sublist [] urls, fun u => ?_⟩
  · rw [_dedupe, mem_dedupeAux]
    simp
  · rw [_dedupe_scraper, mem_dedupeScraperAux]
    simp

/-- C10: `guess_ext_from_content_type` consults the fixed MIME table first;
on a miss it falls back to scanning the lower-cased URL against the fixed
ordered extension list (normalizing `jpeg` to `jpg`); `image/png` maps to
`png` for every URL, a bare `.jpeg` URL yields `jpg`, and `text/html` with
an extension-free URL yields `none`. -/
theorem C10_resolve_extension :
    (∀ url, guess_ext_from_content_type "image/png" url = some "png") ∧
    guess_ext_from_content_type "" "https://x/y/photo.jpeg" = some "jpg" ∧
    guess_ext_from_content_type "text/html" "https://x/y/z" = none ∧
    (∀ ct url e, EXT_MAPPING.lookup (lowerStr ct) = some e →
      guess_ext_from_content_type ct url = some e) ∧
    (∀ ct url, EXT_MAPPING.lookup (lowerStr ct) = none →
      guess_ext_from_content_type ct url = extScan (lowerStr url) URL_EXT_SCAN_ORDER) := by
  refine ⟨fun url => ?_, by decide, by decide, fun ct url e h => ?_, fun ct url h => ?_⟩
  · simp [guess_ext_from_content_type,
      show EXT_MAPPING.lookup (lowerStr "image/png") = some "png" from by decide]
  · simp [guess_ext_from_content_type, h]
  · simp [guess_ext_from_content_type, h]

/-- Witness for C10: the table hit `video/mp4 ↦ mp4`, obtained through the
table-first branch of the theorem. -/
theorem C10_resolve_extension_witness :
    EXT_MAPPING.lookup (lowerStr "video/mp4") = some "mp4" ∧
    guess_ext_from_content_type "video/mp4" "zz" = some "mp4" :=
  ⟨by decide, C10_resolve_extension.2.2.2.1 "video/mp4" "zz" "mp4" (by decide)⟩

/-! ## Running-maximum loop lemmas -/

theorem pickLoop_const {α : Type} (sc : α → Int) (url : α → String) :
    ∀ (xs : List α) (bu : Option String) (bs : Int),
      (∀ x ∈ xs, sc x ≤ bs) → pickLoop sc url xs bu bs = (bu, bs) := by
  intro xs
  induction xs with
  | nil => intro bu bs _; rfl
  | cons x rest ih =>
    intro bu bs h
    unfold pickLoop
    split
    · rename_i hlt
      exact absurd hlt (by have := h x (List.mem_cons_self x rest); omega)
    · exact ih bu bs fun y hy => h y (List.mem_cons_of_mem x hy)

theorem pickLoop_max {α : Type} (sc : α → Int) (url : α → String) :
    ∀ (xs : List α) (bu : Option String) (bs : Int),
      (∃ x ∈ xs, bs < sc x) →
      ∃ pre x suf, xs = pre ++ x :: suf ∧
        pickLoop sc url xs bu bs = (some (url x), sc x) ∧
        bs < sc x ∧ (∀ y ∈ xs, sc y ≤ sc x) ∧ (∀ y ∈ pre, sc y < sc x) := by
  intro xs
  induction xs with
  | nil => rintro bu bs ⟨x, hx, -⟩; exact absurd hx (List.not_mem_nil x)
  | cons a rest ih =>
    rintro bu bs hex
    by_cases ha : bs < sc a
    · by_cases hrest : ∃ y ∈ rest, sc a < sc y
      · obtain ⟨pre, x, suf, hsplit, hres, hlt, hall, hpre⟩ := ih (some (url a)) (sc a) hrest
        refine ⟨a :: pre, x, suf, by rw [hsplit]; rfl, ?_, by omega, ?_, ?_⟩
        · unfold pickLoop
          rw [if_pos ha]
          exact hres
        · intro y hy
          rcases List.mem_cons.mp hy with rfl | hy
          · omega
          · exact hall y hy
        · intro y hy
          rcases List.mem_cons.mp hy with rfl | hy
          · omega
          · exact hpre y hy
      · push_neg at hrest
        refine ⟨[], a, rest, rfl, ?_, ha, ?_, by simp⟩
        · unfold pickLoop
          rw [if_pos ha]
          exact pickLoop_const sc url rest (some (url a)) (sc a) hrest
        · intro y hy
          rcases List.mem_cons.mp hy with rfl | hy
          · exact le_refl _
          · exact hrest y hy
    · have hex' : ∃ y ∈ rest, bs < sc y := by
        obtain ⟨x, hx, hxs⟩ := hex
        rcases List.mem_cons.mp hx with rfl | hx
        · exact absurd hxs ha
        · exact ⟨x, hx, hxs⟩
      obtain ⟨pre, x, suf, hsplit, hres, hlt, hall, hpre⟩ := ih bu bs hex'
      have hax : sc a < sc x := by push_neg at ha; omega
      refine ⟨a :: pre, x, suf, by rw [hsplit]; rfl, ?_, hlt, ?_, ?_⟩
      · unfold pickLoop
        rw [if_neg ha]
        exact hres
      · intro y hy
        rcases List.mem_cons.mp hy with rfl | hy
        · omega
        · exact hall y hy
      · intro y hy
        rcases List.mem_cons.mp hy with rfl | hy
        · exact hax
        · exact hpre y hy

/-- A logo candidate that scored at least zero cannot be a tracker URL: the
tracker branch of the scorer pins the score at `-999`. -/
theorem scoreImg_nonneg_not_tracker {base_url hint : String} {img : EInfo}
    (h : 0 ≤ scoreImg base_url hint img) :
    _is_tracker (urljoin base_url (effSrc img.attrs)) = false := by
  simp only [scoreImg] at h
  by_cases hsrc : effSrc img.attrs = ""
  · rw [if_pos hsrc] at h; norm_num at h
  · rw [if_neg hsrc] at h
    by_cases htr : _is_tracker (urljoin base_url (effSrc img.attrs)) = true
    · rw [if_pos htr] at h; norm_num at h
    · simpa using htr

/-- C6: logo candidates are scanned in document order under a running
maximum — the selected image is the first one attaining the maximal score
(every earlier candidate scores strictly less, so ties resolve to the first
encountered) — and the result is `none` exactly unless the winning score is
at least zero. -/
theorem C6_logo_running_max (doc : HNode) (base_url brand_hint : String) :
    match _pick_logo_img doc base_url brand_hint with
    | some u =>
        ∃ pre x suf, findAll doc "img" = pre ++ x :: suf ∧
          u = urljoin base_url (effSrc x.attrs) ∧
          0 ≤ scoreImg base_url (lowerStr brand_hint) x ∧
          (∀ y ∈ findAll doc "img",
            scoreImg base_url (lowerStr brand_hint) y ≤
              scoreImg base_url (lowerStr brand_hint) x) ∧
          (∀ y ∈ pre, scoreImg base_url (lowerStr brand_hint) y <
            scoreImg base_url (lowerStr brand_hint) x)
    | none => ∀ y ∈ findAll doc "img", scoreImg base_url (lowerStr brand_hint) y < 0 := by
  by_cases hex : ∃ y ∈ findAll doc "img",
      (-999 : Int) < scoreImg base_url (lowerStr brand_hint) y
  · obtain ⟨pre, x, suf, hsplit, hres, hlt, hall, hpre⟩ :=
      pickLoop_max (scoreImg base_url (lowerStr brand_hint))
        (fun img => urljoin base_url (effSrc img.attrs)) (findAll doc "img")
        none (-999) hex
    have hpick : _pick_logo_img doc base_url brand_hint =
        if 0 ≤ scoreImg base_url (lowerStr brand_hint) x
        then some (urljoin base_url (effSrc x.attrs)) else none := by
      simp only [_pick_logo_img]
      rw [hres]
    by_cases hge : (0 : Int) ≤ scoreImg base_url (lowerStr brand_hint) x
    · rw [hpick, if_pos hge]
      exact ⟨pre, x, suf, hsplit, rfl, hge, hall, hpre⟩
    · rw [hpick, if_neg hge]
      intro y hy
      have := hall y hy
      omega
  · push_neg at hex
    have hconst := pickLoop_const (scoreImg base_url (lowerStr brand_hint))
      (fun img => urljoin base_url (effSrc img.attrs)) (findAll doc "img")
      none (-999) hex
    have hpick : _pick_logo_img doc base_url brand_hint = none := by
      simp only [_pick_logo_img]
      rw [hconst]
      norm_num
    rw [hpick]
    intro y hy
    have := hex y hy
    omega

/-- C5 (amended): every URL containing one of the fixed tracker substrings
makes `_is_tracker` true, and tracker URLs never appear as the selected logo
or in the image-URL output; the video and embed outputs, however, carry no
tracker filter (see the counterexample). -/
theorem C5_tracker_filtering_amended :
    (∀ u t, t ∈ TRACKER_HOST_SUBSTRINGS → strContains u t = true →
      _is_tracker u = true) ∧
    (∀ doc base_url u, (extract_dom doc base_url).logo_url = some u →
      _is_tracker u = false) ∧
    (∀ doc base_url u, u ∈ (extract_dom doc base_url).image_urls →
      _is_tracker u = false) := by
  refine ⟨?_, ?_, ?_⟩
  · intro u t ht hc
    have hfix : t.data.map Char.toLower = t.data := by
      fin_cases ht <;> decide
    have hlow := strContains_lowerStr hfix hc
    exact List.any_eq_true.mpr ⟨t, ht, hlow⟩
  · intro doc base_url u hlogo
    simp only [extract_dom] at hlogo
    by_cases hex : ∃ y ∈ findAll doc "img",
        (-999 : Int) < scoreImg base_url (lowerStr (brandHint base_url)) y
    · obtain ⟨pre, x, suf, hsplit, hres, hlt, hall, hpre⟩ :=
        pickLoop_max (scoreImg base_url (lowerStr (brandHint base_url)))
          (fun img => urljoin base_url (effSrc img.attrs)) (findAll doc "img")
          none (-999) hex
      simp only [_pick_logo_img] at hlogo
      rw [hres] at hlogo
      dsimp only at hlogo
      split_ifs at hlogo with hge
      obtain rfl := Option.some.inj hlogo
      exact scoreImg_nonneg_not_tracker hge
    · push_neg at hex
      have hconst := pickLoop_const (scoreImg base_url (lowerStr (brandHint base_url)))
        (fun img => urljoin base_url (effSrc img.attrs)) (findAll doc "img")
        none (-999) hex
      simp only [_pick_logo_img] at hlogo
      rw [hconst] at hlogo
      norm_num at hlogo
      exact absurd hlogo (by simp)
  · intro doc base_url u himg
    simp only [extract_dom, imageUrls, _dedupe] at himg
    rw [mem_dedupeAux] at himg
    obtain ⟨hmem, -, -⟩ := himg
    obtain ⟨img, -, hf⟩ := List.mem_filterMap.mp hmem
    split_ifs at hf with h1 h2
    obtain rfl := Option.some.inj hf
    simpa using h2

/-- C5 (counterexample): the page whose only video candidate is an anchor to
a tracker-hosted mp4 file: `_is_tracker` is true of that URL, yet it appears
verbatim in the direct-video output, because `_collect_video_urls` applies no
tracker filter. -/
theorem C5_tracker_filtering_counterexample :
    _is_tracker "https://doubleclick.net/x.mp4" = true ∧
    (extract_dom trackerAnchorDoc "https://site.example/").video_urls =
      ["https://doubleclick.net/x.mp4"] := by
  decide

/-- Witness for C5: the tracker predicate fires on a literal tracker URL, and
a page's ordinary same-site image URL — a member of the image output — is not
a tracker. -/
theorem C5_tracker_filtering_witness :
    _is_tracker "https://doubleclick.net/x.mp4" = true ∧
    _is_tracker "https://site.example/a.png" = false :=
  ⟨C5_tracker_filtering_amended.1 "https://doubleclick.net/x.mp4" "doubleclick.net"
      (by decide) (by decide),
   C5_tracker_filtering_amended.2.2 plainImageDoc "https://site.example/"
      "https://site.example/a.png" (by decide)⟩

/-- C7: on the Acme page, the header image with alt text `"Acme logo"` scores
120 while the award-badge image scores 25 — strictly higher — and the header
image's URL is selected as the logo. -/
theorem C7_acme_header_logo_wins :
    (findAll acmeDoc "img").map (scoreImg acmeBase (lowerStr (brandHint acmeBase))) =
      [120, 25] ∧
    scoreImg acmeBase (lowerStr (brandHint acmeBase))
        ((findAll acmeDoc "img").getD 0 ⟨"", [], [], .text ""⟩) >
      scoreImg acmeBase (lowerStr (brandHint acmeBase))
        ((findAll acmeDoc "img").getD 1 ⟨"", [], [], .text ""⟩) ∧
    (extract_dom acmeDoc acmeBase).logo_url = some "https://acme.com/logo.png" := by
  decide

/-- C8 (counterexample): an image whose only source attribute is the lazy
`data-src`: the top-level variant resolves it, but the `zenrows_scraper`
variant resolves the empty string — its effective source is not drawn from
any preference list containing lazy-load attribute names. -/
theorem C8_src_attribute_counterexample :
    attrGet [("data-src", "lazy.png")] "data-src" = some "lazy.png" ∧
    effSrc [("data-src", "lazy.png")] = "lazy.png" ∧
    effSrcScraper [("data-src", "lazy.png")] = "" := by
  decide

/-- C8 (amended): in the top-level `extract_dom.py`, the effective source of
an image element is the first truthy value of the ordered attribute
preference list `src`, `data-src`, `data-lazy-src` (stripped); in the
`zenrows_scraper` variant the preference list is just `src` — no lazy-loading
attribute is consulted. -/
theorem C8_src_attribute_preference_amended (attrs : List (String × String)) :
    (effSrc attrs = strTrim ((((["src", "data-src", "data-lazy-src"].map
      (attrGet attrs)).filterMap id).filter (fun s => s != "")).headD "")) ∧
    (effSrcScraper attrs = strTrim ((((["src"].map
      (attrGet attrs)).filterMap id).filter (fun s => s != "")).headD "")) := by
  constructor
  · unfold effSrc pyOr
    cases h1 : attrGet attrs "src" <;> cases h2 : attrGet attrs "data-src" <;>
      cases h3 : attrGet attrs "data-lazy-src" <;>
        simp [h1, h2, h3] <;> (try split_ifs) <;> (try simp_all) <;>
          (try split_ifs) <;> simp_all
  · unfold effSrcScraper pyOr
    cases h1 : attrGet attrs "src" <;> simp [h1] <;> (try split_ifs) <;> simp_all

/-- C3 (counterexample): five consecutive 500 responses under a budget of
exactly 5 attempts surface the terminal failure chained from `None` — not
from any underlying error — because retry-status responses sleep and continue
without ever setting `last_err`. -/
theorem C3_retry_counterexample :
    (zenrows_get ev500 (fun _ => 0) 5).1 = .terminalFailure none := by
  decide

/-- C3 (amended): `[503, 503, 200]` under a budget of at least 3 yields one
success and exactly two backoff sleeps of duration `min(20, 2^attempt)` plus
the attempt's jitter; five consecutive 500s under a budget of 5 yield a
surfaced terminal failure after five backoff sleeps, but chained from no
underlying error; the failure wraps the last underlying error only when
attempts fail by raising, as with transport exceptions. -/
theorem C3_retry_behaviour (jitter : Nat → ℚ) (m : Nat) (hm : 3 ≤ m) :
    zenrows_get ev503503200 jitter m =
      (.success 200, [backoff jitter 0, backoff jitter 1]) ∧
    zenrows_get ev500 jitter 5 =
      (.terminalFailure none, [backoff jitter 0, backoff jitter 1, backoff jitter 2,
        backoff jitter 3, backoff jitter 4]) ∧
    zenrows_get (fun i => .exn i) jitter 2 =
      (.terminalFailure (some (.transport 1)), [backoff jitter 0, backoff jitter 1]) := by
  refine ⟨?_, ?_, ?_⟩
  · obtain ⟨k, rfl⟩ : ∃ k, m = k + 3 := ⟨m - 3, by omega⟩
    show zenrowsLoop ev503503200 jitter (k + 3) 0 none [] = _
    simp [zenrowsLoop, ev503503200, RETRY_STATUSES]
  · simp [zenrows_get, zenrowsLoop, ev500, RETRY_STATUSES]
  · simp [zenrows_get, zenrowsLoop]

/-- Witness for C3 at the smallest budget: three attempts suffice and the
success lands after exactly two sleeps. -/
theorem C3_retry_behaviour_witness :
    3 ≤ 3 ∧ zenrows_get ev503503200 (fun _ => 0) 3 =
      (.success 200, [backoff (fun _ => 0) 0, backoff (fun _ => 0) 1]) :=
  ⟨by norm_num, (C3_retry_behaviour (fun _ => 0) 3 (by norm_num)).1⟩

/-- C4 (counterexample): one requested image URL whose download succeeds as a
PNG but whose palette step then raises produces TWO outcome entries — the
already-appended success record plus the error record appended by the
`except` arm — so "exactly one outcome per requested URL" fails. -/
theorem C4_per_url_outcome_counterexample :
    processImages paletteFailEnv ["https://x/a.png"] =
      [⟨"https://x/a.png", true, none⟩,
       ⟨"https://x/a.png", false, some "palette failed"⟩] ∧
    (processImages paletteFailEnv ["https://x/a.png"]).length ≠
      (["https://x/a.png"] : List String).length := by
  decide

/-- C4 (amended): every requested URL yields at least one and at most two
outcome records, all carrying that URL; exactly two occur precisely when a
raster download succeeds and the palette step then fails; the video loop
yields exactly one record per URL; and both loops process list segments
independently, so one asset's failure never disturbs the records of the
others. -/
theorem C4_per_url_outcome_amended (env : String → ImgDl) (venv : String → VidDl)
    (u : String) (urls more : List String) :
    processImage env u ≠ [] ∧
    (processImage env u).length ≤ 2 ∧
    (∀ e ∈ processImage env u, e.requested_url = u) ∧
    ((processImage env u).length = 2 ↔ ∃ ct fu err, env u = .got ct fu (some err) ∧
      ∃ ext, guess_ext_from_content_type ct fu = some ext ∧ ext ∈ RASTER_EXTS) ∧
    (processVideo venv u).length = 1 ∧
    (∀ e ∈ processVideo venv u, e.requested_url = u) ∧
    processImages env (urls ++ more) = processImages env urls ++ processImages env more ∧
    processVideos venv (urls ++ more) = processVideos venv urls ++ processVideos venv more := by
  have hvid : (processVideo venv u).length = 1 ∧
      (∀ e ∈ processVideo venv u, e.requested_url = u) := by
    unfold processVideo
    rcases henv : venv u with e | ⟨ct, fu⟩
    · simp [henv]
    · rcases hext : guess_ext_from_content_type ct fu with _ | ext <;> simp [henv, hext]
  have himg : processImage env u ≠ [] ∧ (processImage env u).length ≤ 2 ∧
      (∀ e ∈ processImage env u, e.requested_url = u) ∧
      ((processImage env u).length = 2 ↔ ∃ ct fu err, env u = .got ct fu (some err) ∧
        ∃ ext, guess_ext_from_content_type ct fu = some ext ∧ ext ∈ RASTER_EXTS) := by
    unfold processImage
    rcases henv : env u with e | ⟨ct, fu, perr⟩
    · simp [henv]
    · rcases hext : guess_ext_from_content_type ct fu with _ | ext
      · simp [henv, hext]
      · by_cases hr : ext ∈ RASTER_EXTS
        · rcases perr with _ | err
          · simp [henv, hext, hr]
          · simp only [henv, hext, hr, if_pos]
            refine ⟨by simp, by simp, by simp, ?_⟩
            simp only [List.length_cons, List.length_singleton]
            constructor
            · intro _
              exact ⟨ct, fu, err, rfl, ext, hext, hr⟩
            · intro _
              rfl
        · simp [henv, hext, hr]
  exact ⟨himg.1, himg.2.1, himg.2.2.1, himg.2.2.2, hvid.1, hvid.2,
    by simp only [processImages, List.flatMap_append],
    by simp only [processVideos, List.flatMap_append]⟩

/-- Witness for C1's amended statement at a concrete capped download. -/
theorem C1_capped_bytes_amended_witness :
    (download_stream_capped [[5], [6, 7]] 2).capped = true ∧
    (download_stream_capped [[5], [6, 7]] 2).written.length ≤ 2 ∧
    ((download_stream_capped [[5], [6, 7]] 2).bytes ≤ 2 ↔
      (download_stream_capped [[5], [6, 7]] 2).bytes =
        (download_stream_capped [[5], [6, 7]] 2).written.length) :=
  C1_capped_bytes_amended [[5], [6, 7]] 2

/-- Witness for C2 at a concrete capped download. -/
theorem C2_capped_download_within_cap_witness :
    (download_stream_capped [[1, 2], [3]] 2).written.length ≤ 2 ∧
    (download_stream_capped [[1, 2], [3]] 2).written <+: [[1, 2], [3]].flatten :=
  C2_capped_download_within_cap [[1, 2], [3]] 2

/-- Witness for C4's amended statement: a failing download still yields its
(single, non-empty) outcome record. -/
theorem C4_per_url_outcome_amended_witness :
    processImage (fun _ => ImgDl.raiseErr "boom") "u" ≠ [] :=
  (C4_per_url_outcome_amended (fun _ => .raiseErr "boom")
    (fun _ => .raiseErr "boom") "u" [] []).1

/-- Witness for C6: the running-maximum characterization instantiated on the
Acme page. -/
theorem C6_logo_running_max_witness :
    (match _pick_logo_img acmeDoc acmeBase "acme" with
    | some u =>
        ∃ pre x suf, findAll acmeDoc "img" = pre ++ x :: suf ∧
          u = urljoin acmeBase (effSrc x.attrs) ∧
          0 ≤ scoreImg acmeBase (lowerStr "acme") x ∧
          (∀ y ∈ findAll acmeDoc "img",
            scoreImg acmeBase (lowerStr "acme") y ≤
              scoreImg acmeBase (lowerStr "acme") x) ∧
          (∀ y ∈ pre, scoreImg acmeBase (lowerStr "acme") y <
            scoreImg acmeBase (lowerStr "acme") x)
    | none => ∀ y ∈ findAll acmeDoc "img",
        scoreImg acmeBase (lowerStr "acme") y < 0) :=
  C6_logo_running_max acmeDoc acmeBase "acme"

/-- Witness for C8's amended statement at a concrete attribute list where
`src` beats `data-src` in the top-level variant. -/
theorem C8_src_attribute_preference_witness :
    (effSrc [("data-src", "lazy.png"), ("src", "eager.png")] =
      strTrim ((((["src", "data-src", "data-lazy-src"].map
        (attrGet [("data-src", "lazy.png"), ("src", "eager.png")])).filterMap id).filter
          (fun s => s != "")).headD "")) ∧
    (effSrcScraper [("data-src", "lazy.png"), ("src", "eager.png")] =
      strTrim ((((["src"].map
        (attrGet [("data-src", "lazy.png"), ("src", "eager.png")])).filterMap id).filter
          (fun s => s != "")).headD "")) :=
  C8_src_attribute_preference_amended [("data-src", "lazy.png"), ("src", "eager.png")]

/-- Witness for C9's amended statement at a concrete URL list with an empty
entry and a duplicate. -/
theorem C9_dedupe_characterization_witness :
    ((_dedupe ["a", "", "b", "a"]).Nodup ∧
      (_dedupe ["a", "", "b", "a"]).Sublist ["a", "", "b", "a"] ∧
      ∀ u, u ∈ _dedupe ["a", "", "b", "a"] ↔ u ∈ ["a", "", "b", "a"] ∧ u ≠ "") ∧
    ((_dedupe_scraper ["a", "", "b", "a"]).Nodup ∧
      (_dedupe_scraper ["a", "", "b", "a"]).Sublist ["a", "", "b", "a"] ∧
      ∀ u, u ∈ _dedupe_scraper ["a", "", "b", "a"] ↔ u ∈ ["a", "", "b", "a"]) :=
  C9_dedupe_characterization_amended ["a", "", "b", "a"]
